import Mathlib

/-!
Verification development for the JustRAIGS preprocessing repository
(`src/Preprocessing/Images_Preprocessing.py`).

The Python source is embedded shallowly:

* a raw decoded image (a numpy `HxWxC` uint8 array) is a `List (List (List Nat))`
  of rows of pixels of channel values;
* the exact integer and rational arithmetic of the source is kept (`0.1 * mean`,
  `0.02` thresholds, Python `int()` of a nonnegative float = floor, `//` = Nat
  division); the LANCZOS resampling filter of `PIL.Image.resize` and the CLAHE
  pixel transform of OpenCV are external-library pixel-level computations and are
  modelled at the level of image sizes and channel count, which is all the
  properties below depend on;
* the batch driver works over an explicit filesystem state: a list of directory
  paths and an association list from file paths to file data.
-/

instance {ε α : Type} [DecidableEq ε] [DecidableEq α] : DecidableEq (Except ε α) := fun x y =>
  match x, y with
  | Except.error a, Except.error b =>
      if h : a = b then isTrue (by rw [h]) else isFalse (by simp [h])
  | Except.ok a, Except.ok b =>
      if h : a = b then isTrue (by rw [h]) else isFalse (by simp [h])
  | Except.error _, Except.ok _ => isFalse (by simp)
  | Except.ok _, Except.error _ => isFalse (by simp)

/-- A raw decoded image: rows of pixels; each pixel is a list of channel
values (`cv2.imread` produces three channels in B,G,R order). -/
abbrev RawImage := List (List (List Nat))

/-- A single-channel (grayscale) image. -/
abbrev GrayImage := List (List Nat)

/-- Width of a raw image (`img.shape[1]`). -/
def width (im : RawImage) : Nat := (im.headD []).length

/-- Channel count of a raw image (`img.shape[2]`). -/
def channels (im : RawImage) : Nat := ((im.headD []).headD []).length

/-- Rectangular, nonempty image: every row has the same width, every pixel the
same channel count, and both dimensions are positive (a decoded numpy image). -/
def ValidImage (im : RawImage) : Prop :=
  0 < im.length ∧ 0 < width im ∧
    ∀ row ∈ im, row.length = width im ∧ ∀ p ∈ row, p.length = channels im

instance : DecidablePred ValidImage := fun im => by
  unfold ValidImage; infer_instance

/-- A valid three-channel (BGR) image, as produced by `cv2.imread`. -/
def ValidBGR (im : RawImage) : Prop := ValidImage im ∧ channels im = 3

instance : DecidablePred ValidBGR := fun im => by
  unfold ValidBGR; infer_instance

/-- Grayscale value of a B,G,R pixel, as OpenCV computes it in fixed point:
`(1868*B + 9617*G + 4899*R + 8192) >> 14` (the coefficients sum to `2^14`). -/
def grayOfPixel (p : List Nat) : Nat :=
  (1868 * p.getD 0 0 + 9617 * p.getD 1 0 + 4899 * p.getD 2 0 + 8192) / 16384

/-- The grayscale image produced by `cv2.cvtColor(img, cv2.COLOR_BGR2GRAY)`
once its input checks have passed. -/
def grayOk (im : RawImage) : GrayImage := im.map fun row => row.map grayOfPixel

/-- `cv2.cvtColor(img, cv2.COLOR_BGR2GRAY)`: raises on an empty source and on a
channel count other than 3 or 4; otherwise converts to one gray channel. -/
def cvtColor_BGR2GRAY (im : RawImage) : Except String GrayImage :=
  if im.length = 0 ∨ width im = 0 then
    Except.error "empty source image"
  else if channels im = 3 ∨ channels im = 4 then
    Except.ok (grayOk im)
  else
    Except.error "invalid number of channels in input image"

/-- The strictly nonzero grayscale values, `img_gray[img_gray != 0]`. -/
def nonzeroVals (g : GrayImage) : List Nat :=
  (g.flatten).filter (fun x => x ≠ 0)

/-- `np.mean(img_gray[img_gray != 0])` as an exact rational.  For an empty
selection numpy yields NaN; every later `>` comparison against NaN is false, so
the NaN case is modelled as `none` (and the mask built from it is all-false). -/
def meanNonzero (g : GrayImage) : Option ℚ :=
  let l := nonzeroVals g
  if l.length = 0 then none
  else some ((l.sum : ℚ) / (l.length : ℚ))

/-- One entry of `im_binary = img_gray > 0.1 * np.mean(...)`. -/
def maskPixel (m : Option ℚ) (p : Nat) : Bool :=
  match m with
  | none => false
  | some μ => decide ((p : ℚ) > 0.1 * μ)

/-- The binary mask `im_binary`. -/
def maskOf (g : GrayImage) : List (List Bool) :=
  g.map fun row => row.map (maskPixel (meanNonzero g))

/-- `percentage = 0.02` from the source. -/
def percentage : ℚ := 0.02

/-- `np.where(sums > bound * percentage)[0]`: the indices whose sum strictly
exceeds two percent of the bound. -/
def qualifying (sums : List Nat) (bound : Nat) : List Nat :=
  (List.range sums.length).filter fun i =>
    decide (((sums.getD i 0 : Nat) : ℚ) > (bound : ℚ) * percentage)

/-- `np.min` of a nonempty list (junk value 0 on the empty list, which the
source never reaches because it is guarded by `rows.size and cols.size`). -/
def npMin (l : List Nat) : Nat :=
  match l with
  | [] => 0
  | h :: t => t.foldl Nat.min h

/-- `np.max` of a nonempty list, same convention as `npMin`. -/
def npMax (l : List Nat) : Nat :=
  match l with
  | [] => 0
  | h :: t => t.foldl Nat.max h

/-- `img[min_row:max_row+1, min_col:max_col+1]` on the color image. -/
def cropBox (im : RawImage) (minRow maxRow minCol maxCol : Nat) : RawImage :=
  ((im.drop minRow).take (maxRow + 1 - minRow)).map fun row =>
    (row.drop minCol).take (maxCol + 1 - minCol)

/-- Lines 23-33 of `trim_and_resize`: grayscale analysis and conditional crop
of the original color image.  `np.sum(im_binary, axis=1)` counts the true
entries of each row; `np.sum(im_binary, axis=0)` counts, for every column index
`j < width`, the true entries in column `j` (written index-wise, which agrees
with the numpy column sum on the rectangular arrays numpy produces). -/
def cropStep (im : RawImage) : Except String RawImage :=
  match cvtColor_BGR2GRAY im with
  | Except.error e => Except.error e
  | Except.ok img_gray =>
    let im_binary := maskOf img_gray
    let row_sums := im_binary.map fun r => r.count true
    let col_sums := (List.range (width im)).map fun j =>
      (im_binary.map fun r => r.getD j false).count true
    let rows := qualifying row_sums (width im)
    let cols := qualifying col_sums im.length
    if rows ≠ [] ∧ cols ≠ [] then
      Except.ok (cropBox im (npMin rows) (npMax rows) (npMin cols) (npMax cols))
    else
      Except.ok im

/-- `cropStep` with every exact rational comparison replaced by the equivalent
integer comparison (`p > 0.1 * (S/N)` iff `10*p*N > S`, and `s > b * 0.02` iff
`50*s > b`; with no nonzero pixel, `N = S = 0` makes every mask entry false,
matching the all-false NaN comparisons).  `cropStep_eq_cropStepN` below proves
it equal to `cropStep`; concrete runs are evaluated through this form because
rational arithmetic does not reduce inside the kernel. -/
def cropStepN (im : RawImage) : Except String RawImage :=
  match cvtColor_BGR2GRAY im with
  | Except.error e => Except.error e
  | Except.ok img_gray =>
    let S := (nonzeroVals img_gray).sum
    let N := (nonzeroVals img_gray).length
    let im_binary := img_gray.map fun row => row.map fun p => decide (10 * p * N > S)
    let row_sums := im_binary.map fun r => r.count true
    let col_sums := (List.range (width im)).map fun j =>
      (im_binary.map fun r => r.getD j false).count true
    let rows := (List.range row_sums.length).filter fun i =>
      decide (50 * row_sums.getD i 0 > width im)
    let cols := (List.range col_sums.length).filter fun i =>
      decide (50 * col_sums.getD i 0 > im.length)
    if rows ≠ [] ∧ cols ≠ [] then
      Except.ok (cropBox im (npMin rows) (npMax rows) (npMin cols) (npMax cols))
    else
      Except.ok im

/-- The square output of `trim_and_resize`, recorded at the level the PIL calls
determine it: the canvas created by `Image.new("RGB", (output_size, output_size))`,
the size passed to `Image.resize` and the offsets passed to `paste`.  The LANCZOS
resampled pixel values are an external-library floating-point computation and
are not modelled; no property below depends on them. -/
structure SquareImage where
  canvasW : Nat
  canvasH : Nat
  mode : String
  contentW : Nat
  contentH : Nat
  pasteX : Nat
  pasteY : Nat
deriving DecidableEq

/-- Channel count of a PIL image mode. -/
def channelsOfMode : String → Nat
  | "RGB" => 3
  | "RGBA" => 4
  | "L" => 1
  | _ => 0

/-- Lines 34-41 of `trim_and_resize`:
`ratio = float(output_size) / max(old_size)`;
`new_size = tuple([int(x * ratio) for x in old_size])` — Python `int()` of a
nonnegative value truncates, and in exact arithmetic
`int(x * (output_size / m)) = x * output_size / m` in Nat division;
the canvas is `Image.new("RGB", (output_size, output_size))` and the paste
offset is `((output_size - new_w) // 2, (output_size - new_h) // 2)`. -/
def resizeStep (img : RawImage) (output_size : Nat) : SquareImage :=
  let old_w := width img
  let old_h := img.length
  let m := Nat.max old_w old_h
  let new_w := old_w * output_size / m
  let new_h := old_h * output_size / m
  { canvasW := output_size
    canvasH := output_size
    mode := "RGB"
    contentW := new_w
    contentH := new_h
    pasteX := (output_size - new_w) / 2
    pasteY := (output_size - new_h) / 2 }

/-- `trim_and_resize(im, output_size)`: crop, then resize onto a square canvas. -/
def trim_and_resize (im : RawImage) (output_size : Nat) : Except String SquareImage :=
  match cropStep im with
  | Except.error e => Except.error e
  | Except.ok img => Except.ok (resizeStep img output_size)

/-! ## The batch driver `process_and_save_images`

The filesystem is an explicit state: a list of directory paths plus an
association list from file paths to file data, where a path is the list of its
components (`os.path.join` is list append).  `os.path.exists` is true for a
path that is a directory or a file; `os.makedirs` and `cv2.imwrite` append.
Source files carry `Option RawImage` data: `none` models a file that
`cv2.imread` cannot decode (imread then returns `None`).  Files written by the
driver carry the `SquareImage` produced by the transform; the driver never
reads them back (the existence check fires first), so decoding them is not
modelled. -/

/-- A filesystem path, as its list of components. -/
abbrev FPath := List String

/-- Data stored at a file path. -/
inductive FileKind where
  | source (data : Option RawImage)
  | written (img : SquareImage)
deriving DecidableEq

/-- The filesystem state. -/
structure FS where
  dirs : List FPath
  files : List (FPath × FileKind)
deriving DecidableEq

/-- The data at a file path, if a file exists there. -/
def FS.lookupFile (fs : FS) (p : FPath) : Option FileKind :=
  (fs.files.find? fun e => decide (e.1 = p)).map Prod.snd

/-- `os.path.exists`: true for an existing directory or file. -/
def FS.pexists (fs : FS) (p : FPath) : Bool :=
  decide (p ∈ fs.dirs) || (fs.lookupFile p).isSome

/-- `os.makedirs` (called only under a `not os.path.exists` guard). -/
def FS.mkdir (fs : FS) (p : FPath) : FS :=
  { fs with dirs := fs.dirs ++ [p] }

/-- The guarded directory creation idiom of the source:
`if not os.path.exists(d): os.makedirs(d)`. -/
def FS.ensureDir (fs : FS) (p : FPath) : FS :=
  if fs.pexists p then fs else fs.mkdir p

/-- `cv2.imwrite` (reached only for a path that does not exist yet). -/
def FS.write (fs : FS) (p : FPath) (d : FileKind) : FS :=
  { fs with files := fs.files ++ [(p, d)] }

/-- `os.listdir`: the names of the entries directly inside `dir`.  Only files
are modelled; none of the verified properties depends on subdirectory entries
appearing in a listing. -/
def FS.listdir (fs : FS) (dir : FPath) : List String :=
  fs.files.filterMap fun e =>
    if e.1.dropLast = dir ∧ e.1 ≠ [] then some (e.1.getLastD "") else none

/-- `cv2.imread`: `none` for a missing or undecodable file. -/
def imread (fs : FS) (p : FPath) : Option RawImage :=
  match fs.lookupFile p with
  | some (FileKind.source (some img)) => some img
  | _ => none

/-- `apply_clahe` at the level this development tracks the post-resize images:
CLAHE is applied per channel by the external imaging library and preserves the
image size and channel count. -/
def apply_clahe (img : SquareImage) : SquareImage := img

/-- The messages the driver prints. -/
inductive LogMsg where
  | subfolderMissing (sub : String)
  | processedSaved (path : FPath)
  | errorProcessing (path : FPath) (msg : String)
  | skippingExists (path : FPath)
deriving DecidableEq

/-- `f.lower().endswith(('.png', '.jpg', '.jpeg'))`.  A Python string is a
sequence of code points, so the lowering and the suffix tests are modelled on
the character sequence; `Char.toLower` lowers the ASCII letters, which covers
the extensions tested. -/
def hasImageExt (f : String) : Bool :=
  ".png".data.isSuffixOf (f.data.map Char.toLower) ||
  ".jpg".data.isSuffixOf (f.data.map Char.toLower) ||
  ".jpeg".data.isSuffixOf (f.data.map Char.toLower)

/-- The `try:` block of the per-file loop (lines 65-75): ensure the output
subdirectory exists, load, transform, write.  The filesystem component of the
result also carries the effects performed before an exception; the `Except`
component is the exception, if one was raised.  When `cv2.imread` returns
`None` the code falls through its `if image_original is not None` guard with no
message and no write. -/
def tryBody (output_size : Nat) (image_path output_image_path : FPath) (fs : FS) :
    FS × Except String (List LogMsg) :=
  let outDir := output_image_path.dropLast
  let fs1 := fs.ensureDir outDir
  match imread fs1 image_path with
  | none => (fs1, Except.ok [])
  | some img =>
    match trim_and_resize img output_size with
    | Except.error e => (fs1, Except.error e)
    | Except.ok trimmed =>
      let enhanced := apply_clahe trimmed
      (fs1.write output_image_path (FileKind.written enhanced),
       Except.ok [LogMsg.processedSaved output_image_path])

/-- One iteration of the per-file loop: skip if the output path exists,
otherwise run the `try:` block and catch any exception. -/
def processFile (output_size : Nat) (inRoot outRoot : FPath) (sub : String)
    (st : FS × List LogMsg) (name : String) : FS × List LogMsg :=
  let image_path := inRoot ++ [sub, name]
  let output_image_path := outRoot ++ [sub, name]
  if st.1.pexists output_image_path then
    (st.1, st.2 ++ [LogMsg.skippingExists output_image_path])
  else
    match tryBody output_size image_path output_image_path st.1 with
    | (fs2, Except.ok msgs) => (fs2, st.2 ++ msgs)
    | (fs2, Except.error e) => (fs2, st.2 ++ [LogMsg.errorProcessing image_path e])

/-- One iteration of the subfolder loop: skip a missing subfolder with a log
message, otherwise enumerate the image files (the listing is taken once, before
the inner loop) and process each. -/
def processSubfolder (output_size : Nat) (inRoot outRoot : FPath)
    (st : FS × List LogMsg) (sub : String) : FS × List LogMsg :=
  let subfolder_path := inRoot ++ [sub]
  if st.1.pexists subfolder_path then
    let files := (st.1.listdir subfolder_path).filter hasImageExt
    files.foldl (processFile output_size inRoot outRoot sub) st
  else
    (st.1, st.2 ++ [LogMsg.subfolderMissing sub])

/-- The fixed subfolder list `['0', '1', '2', '3', '4', '5']`. -/
def subfolderNames : List String := ["0", "1", "2", "3", "4", "5"]

/-- `process_and_save_images(input_path_folder, output_path_folder, output_size)`
run over a filesystem state; returns the final state and the printed messages. -/
def process_and_save_images (inRoot outRoot : FPath) (output_size : Nat)
    (fs : FS) : FS × List LogMsg :=
  let fs := fs.ensureDir outRoot
  subfolderNames.foldl (processSubfolder output_size inRoot outRoot) (fs, [])

/-! ## Concrete inputs used by witnesses and counterexamples -/

/-- A 9-wide row of saturated white BGR pixels. -/
def brightRow : List (List Nat) := List.replicate 9 [255, 255, 255]

/-- A 9x5 all-white BGR image: the crop keeps it whole, so the resize stage
sees a 9x5 input. -/
def bright9x5 : RawImage := List.replicate 5 brightRow

/-- A 1x2 all-black BGR image. -/
def allBlack1x2 : RawImage := [[[0, 0, 0], [0, 0, 0]]]

/-- A 1x1 single-channel image. -/
def oneChan1x1 : RawImage := [[[7]]]

/-- A 1x1 four-channel (BGRA) image. -/
def fourChan1x1 : RawImage := [[[1, 2, 3, 4]]]

/-- An image is all-zero when every channel value of every pixel is zero. -/
def AllZero (im : RawImage) : Prop := ∀ row ∈ im, ∀ p ∈ row, ∀ c ∈ p, c = 0

instance : DecidablePred AllZero := fun im => by
  unfold AllZero; infer_instance

/-- A filesystem with one input subfolder `0` holding one undecodable file. -/
def corruptFS : FS :=
  { dirs := [["in"], ["in", "0"]]
    files := [(["in", "0", "a.png"], FileKind.source none)] }

/-- A filesystem whose input subfolder `0` holds a stored array that makes the
transform raise (a single-channel array, rejected by `cv2.cvtColor`). -/
def badShapeFS : FS :=
  { dirs := [["in"], ["in", "0"]]
    files := [(["in", "0", "b.jpg"], FileKind.source (some oneChan1x1))] }

/-- A filesystem that already holds a processed output file. -/
def outFS : FS :=
  { dirs := [["out"], ["out", "0"]]
    files := [(["out", "0", "a.png"], FileKind.written (resizeStep allBlack1x2 4))] }

/-! # Theorems -/

/-! ## General list helpers -/

theorem getD_of_all_eq {α : Type} (a : α) (p : List α) (hp : ∀ c ∈ p, c = a) :
    ∀ i, p.getD i a = a := by
  induction p with
  | nil => intro i; simp
  | cons x t ih =>
    intro i
    cases i with
    | zero => simpa using hp x (List.mem_cons_self x t)
    | succ n => simpa using ih (fun c hc => hp c (List.mem_cons_of_mem x hc)) n

theorem getD_map_lt {α β : Type} (f : α → β) (l : List α) (i : Nat) (h : i < l.length)
    (d : β) (d0 : α) : (l.map f).getD i d = f (l.getD i d0) := by
  rw [List.getD_eq_getElem _ _ (by simpa using h), List.getD_eq_getElem _ _ h]
  simp

/-! ## Rational comparisons of the source, as integer comparisons -/

theorem rat_mean_iff (p S N : Nat) (hN : 0 < N) :
    ((p:ℚ) > 0.1 * ((S:ℚ) / (N:ℚ))) ↔ 10 * p * N > S := by
  have hNq : (0:ℚ) < (N:ℚ) := by exact_mod_cast hN
  rw [gt_iff_lt, show (0.1:ℚ) = 1/10 from by norm_num, one_div, inv_mul_eq_div, div_div,
    div_lt_iff₀ (by positivity), gt_iff_lt]
  constructor
  · intro h
    have h2 : (S:ℚ) < ((p * (10 * N) : ℕ) : ℚ) := by push_cast; linarith
    have h3 : S < p * (10 * N) := by exact_mod_cast h2
    have h4 : p * (10 * N) = 10 * p * N := by ring
    omega
  · intro h
    have h2 : ((S:ℕ):ℚ) < ((p * (10 * N) : ℕ):ℚ) := by
      have h4 : p * (10 * N) = 10 * p * N := by ring
      have h3 : S < p * (10 * N) := by omega
      exact_mod_cast h3
    push_cast at h2
    linarith

theorem rat_percent_iff (s b : Nat) : ((s:ℚ) > (b:ℚ) * percentage) ↔ 50 * s > b := by
  rw [gt_iff_lt, show (percentage:ℚ) = 1/50 from by norm_num [percentage], mul_one_div,
    div_lt_iff₀ (by norm_num : (0:ℚ) < 50), gt_iff_lt]
  constructor
  · intro h
    have h2 : (b:ℚ) < ((s * 50 : ℕ) : ℚ) := by push_cast; linarith
    have h3 : b < s * 50 := by exact_mod_cast h2
    omega
  · intro h
    have h2 : ((b:ℕ):ℚ) < ((s * 50 : ℕ):ℚ) := by
      have h3 : b < s * 50 := by omega
      exact_mod_cast h3
    push_cast at h2
    linarith

theorem qualifying_eq_nat (sums : List Nat) (bound : Nat) :
    qualifying sums bound =
      (List.range sums.length).filter fun i => decide (50 * sums.getD i 0 > bound) := by
  unfold qualifying
  refine List.filter_congr fun i _ => ?_
  rw [decide_eq_decide]
  exact rat_percent_iff _ _

theorem maskOf_eq_nat (g : GrayImage) :
    maskOf g = g.map fun row => row.map fun p =>
      decide (10 * p * (nonzeroVals g).length > (nonzeroVals g).sum) := by
  unfold maskOf meanNonzero
  refine List.map_congr_left fun row _ => List.map_congr_left fun p _ => ?_
  by_cases h : (nonzeroVals g).length = 0
  · have hnil : nonzeroVals g = [] := List.length_eq_zero.mp h
    rw [if_pos h]
    show false = decide (10 * p * (nonzeroVals g).length > (nonzeroVals g).sum)
    rw [hnil]
    simp
  · rw [if_neg h]
    show decide _ = decide _
    rw [decide_eq_decide]
    exact rat_mean_iff p _ _ (Nat.pos_of_ne_zero h)

theorem cropStep_eq_cropStepN (im : RawImage) : cropStep im = cropStepN im := by
  unfold cropStep cropStepN
  cases h : cvtColor_BGR2GRAY im with
  | error e => rfl
  | ok g =>
    dsimp only
    rw [maskOf_eq_nat, qualifying_eq_nat, qualifying_eq_nat]

/-! ## The crop stage succeeds on well-formed inputs -/

theorem cvtColor_ok (im : RawImage) (h1 : 0 < im.length) (h2 : 0 < width im)
    (hc : channels im = 3 ∨ channels im = 4) :
    cvtColor_BGR2GRAY im = Except.ok (grayOk im) := by
  unfold cvtColor_BGR2GRAY
  rw [if_neg (by omega), if_pos hc]

theorem cropStep_exists_ok (im : RawImage) (h1 : 0 < im.length) (h2 : 0 < width im)
    (hc : channels im = 3 ∨ channels im = 4) : ∃ c, cropStep im = Except.ok c := by
  unfold cropStep
  rw [cvtColor_ok im h1 h2 hc]
  dsimp only
  split
  · exact ⟨_, rfl⟩
  · exact ⟨_, rfl⟩

/-- C1: for every input image and every positive output size, `trim_and_resize`
returns an image that is exactly `output_size` wide, `output_size` tall, and
has 3 color channels (the canvas is created by
`Image.new("RGB", (output_size, output_size))`). -/
theorem trim_and_resize_output_square (im : RawImage) (output_size : Nat)
    (hv : ValidBGR im) (_hpos : 0 < output_size) :
    ∃ s, trim_and_resize im output_size = Except.ok s ∧
      s.canvasW = output_size ∧ s.canvasH = output_size ∧
      channelsOfMode s.mode = 3 := by
  obtain ⟨⟨h1, h2, _⟩, hc⟩ := hv
  obtain ⟨c, hcrop⟩ := cropStep_exists_ok im h1 h2 (Or.inl hc)
  refine ⟨resizeStep c output_size, ?_, rfl, rfl, rfl⟩
  unfold trim_and_resize
  rw [hcrop]

/-- Witness for C1 at the concrete all-black 1x2 image with output size 4. -/
theorem trim_and_resize_output_square_witness :
    ValidBGR allBlack1x2 ∧ 0 < 4 ∧
      ∃ s, trim_and_resize allBlack1x2 4 = Except.ok s ∧
        s.canvasW = 4 ∧ s.canvasH = 4 ∧ channelsOfMode s.mode = 3 :=
  ⟨by decide, by decide, trim_and_resize_output_square allBlack1x2 4 (by decide) (by decide)⟩

/-- C2 counterexample: for the all-white 9x5 image (uncropped, so the post-crop
size is W=9, H=5 with W ≥ H) and output size 100, the code resizes the content
to height 55 = int(5 * (100/9)), while round(100 * 5/9) = 56, and pastes it at
vertical offset 22, giving top padding 22 and bottom padding 23 — so neither
the claimed rounding nor the claimed equal top/bottom padding holds. -/
theorem trim_and_resize_round_padding_cx :
    cropStep bright9x5 = Except.ok bright9x5 ∧
    width bright9x5 = 9 ∧ bright9x5.length = 5 ∧
    trim_and_resize bright9x5 100 =
      Except.ok { canvasW := 100, canvasH := 100, mode := "RGB",
                  contentW := 100, contentH := 55, pasteX := 0, pasteY := 22 } ∧
    round ((100 * 5 : ℚ) / 9) = 56 ∧
    (55 : Nat) ≠ 56 ∧
    100 - 55 - 22 = 23 ∧ (23 : Nat) ≠ 22 := by
  refine ⟨by rw [cropStep_eq_cropStepN]; decide, by decide, by decide,
    by unfold trim_and_resize; rw [cropStep_eq_cropStepN]; decide,
    ?_, by decide, by decide, by decide⟩
  norm_num [round_eq]

/-- C2 as amended: for a post-crop image of size W x H with W ≥ H and W > 0,
the resized content has width exactly `output_size` and height exactly
`⌊output_size * H / W⌋` (Python `int()` truncates), pasted at horizontal
offset 0 and vertical offset `⌊(output_size - newH) / 2⌋`; the bottom padding
equals the top padding or exceeds it by one, with equality exactly when
`output_size - newH` is even. -/
theorem trim_and_resize_floor_padding (im : RawImage) (output_size : Nat)
    (c : RawImage) (hc : cropStep im = Except.ok c)
    (hwh : c.length ≤ width c) (hw : 0 < width c) :
    ∃ s, trim_and_resize im output_size = Except.ok s ∧
      s.contentW = output_size ∧
      s.contentH = c.length * output_size / width c ∧
      s.pasteX = 0 ∧
      s.pasteY = (output_size - s.contentH) / 2 ∧
      ((output_size - s.contentH) - s.pasteY = s.pasteY ∨
        (output_size - s.contentH) - s.pasteY = s.pasteY + 1) ∧
      ((output_size - s.contentH) % 2 = 0 →
        (output_size - s.contentH) - s.pasteY = s.pasteY) := by
  have hmax : Nat.max (width c) c.length = width c := Nat.max_eq_left hwh
  refine ⟨resizeStep c output_size, ?_, ?_, ?_, ?_, ?_, ?_, ?_⟩
  · unfold trim_and_resize; rw [hc]
  · show width c * output_size / Nat.max (width c) c.length = output_size
    rw [hmax, Nat.mul_div_cancel_left _ hw]
  · show c.length * output_size / Nat.max (width c) c.length =
      c.length * output_size / width c
    rw [hmax]
  · show (output_size - width c * output_size / Nat.max (width c) c.length) / 2 = 0
    rw [hmax, Nat.mul_div_cancel_left _ hw]
    simp
  · rfl
  · have h : (resizeStep c output_size).pasteY =
        (output_size - (resizeStep c output_size).contentH) / 2 := rfl
    omega
  · have h : (resizeStep c output_size).pasteY =
        (output_size - (resizeStep c output_size).contentH) / 2 := rfl
    omega

/-! ## The all-black edge case and the mask characterization -/

theorem grayOfPixel_zero (p : List Nat) (hp : ∀ c ∈ p, c = 0) : grayOfPixel p = 0 := by
  unfold grayOfPixel
  rw [getD_of_all_eq 0 p hp, getD_of_all_eq 0 p hp, getD_of_all_eq 0 p hp]

theorem nonzeroVals_eq_nil (g : GrayImage) (hg : ∀ row ∈ g, ∀ x ∈ row, x = 0) :
    nonzeroVals g = [] := by
  unfold nonzeroVals
  refine List.filter_eq_nil_iff.mpr fun a ha => ?_
  obtain ⟨row, hrow, hx⟩ := List.mem_flatten.mp ha
  simp [hg row hrow a hx]

theorem qualifying_eq_nil (sums : List Nat) (bound : Nat) (h : ∀ s ∈ sums, s = 0) :
    qualifying sums bound = [] := by
  unfold qualifying
  refine List.filter_eq_nil_iff.mpr fun i _ => ?_
  rw [getD_of_all_eq 0 sums h i]
  have hp : (0:ℚ) ≤ (bound:ℚ) * percentage :=
    mul_nonneg (Nat.cast_nonneg _) (by norm_num [percentage])
  simp only [decide_eq_true_eq, gt_iff_lt, not_lt, Nat.cast_zero]
  exact hp

/-- C3: for an all-zero input image the cropping stage does not raise, finds no
qualifying rows or columns, and the image handed to the resize stage is the
original image unchanged.  (With every pixel zero, `np.mean` of the empty
nonzero selection is NaN and every comparison against it is false.) -/
theorem allblack_crop_noop (im : RawImage) (hv : ValidBGR im) (hz : AllZero im) :
    qualifying ((maskOf (grayOk im)).map fun r => r.count true) (width im) = [] ∧
    qualifying ((List.range (width im)).map fun j =>
      ((maskOf (grayOk im)).map fun r => r.getD j false).count true) im.length = [] ∧
    cropStep im = Except.ok im := by
  obtain ⟨⟨h1, h2, _⟩, hc⟩ := hv
  have hgray : ∀ row ∈ grayOk im, ∀ x ∈ row, x = 0 := by
    intro row hrow x hx
    obtain ⟨r0, hr0, rfl⟩ := List.mem_map.mp hrow
    obtain ⟨p, hp, rfl⟩ := List.mem_map.mp hx
    exact grayOfPixel_zero p (hz r0 hr0 p hp)
  have hmean : meanNonzero (grayOk im) = none := by
    unfold meanNonzero
    rw [nonzeroVals_eq_nil _ hgray]
    rfl
  have hmaskfalse : ∀ r ∈ maskOf (grayOk im), ∀ b ∈ r, b = false := by
    intro r hr b hb
    obtain ⟨row, _, rfl⟩ := List.mem_map.mp hr
    obtain ⟨p, _, rfl⟩ := List.mem_map.mp hb
    rw [hmean]
    rfl
  have hrow0 : ∀ s ∈ (maskOf (grayOk im)).map (fun r => r.count true), s = 0 := by
    intro s hs
    obtain ⟨r, hr, rfl⟩ := List.mem_map.mp hs
    rw [List.count_eq_zero]
    intro ht
    exact absurd (hmaskfalse r hr true ht) (by simp)
  have hcol0 : ∀ s ∈ (List.range (width im)).map
      (fun j => ((maskOf (grayOk im)).map fun r => r.getD j false).count true), s = 0 := by
    intro s hs
    obtain ⟨j, _, rfl⟩ := List.mem_map.mp hs
    rw [List.count_eq_zero]
    intro ht
    obtain ⟨r, hr, hrt⟩ := List.mem_map.mp ht
    rw [getD_of_all_eq false r (hmaskfalse r hr) j] at hrt
    exact absurd hrt (by simp)
  have hq1 := qualifying_eq_nil _ (width im) hrow0
  have hq2 := qualifying_eq_nil _ im.length hcol0
  refine ⟨hq1, hq2, ?_⟩
  unfold cropStep
  rw [cvtColor_ok im h1 h2 (Or.inl hc)]
  dsimp only
  rw [hq1, hq2]
  simp

/-- Witness for C3 at the concrete 1x2 all-black image. -/
theorem allblack_crop_noop_witness :
    ValidBGR allBlack1x2 ∧ AllZero allBlack1x2 ∧
      (qualifying ((maskOf (grayOk allBlack1x2)).map fun r => r.count true)
          (width allBlack1x2) = [] ∧
        qualifying ((List.range (width allBlack1x2)).map fun j =>
          ((maskOf (grayOk allBlack1x2)).map fun r => r.getD j false).count true)
          allBlack1x2.length = [] ∧
        cropStep allBlack1x2 = Except.ok allBlack1x2) :=
  ⟨by decide, by decide, allblack_crop_noop allBlack1x2 (by decide) (by decide)⟩

/-- C4: the binary mask marks exactly the grayscale pixels strictly above one
tenth of the mean of the strictly-nonzero grayscale values; a row index
qualifies exactly when its mask count strictly exceeds two percent of the
width, a column index exactly when its mask count strictly exceeds two percent
of the height; and when both index sets are nonempty, the original color image
is cropped to the inclusive bounding box of their minima and maxima. -/
theorem mask_threshold_rows_cols_crop (im : RawImage) (hv : ValidBGR im)
    (hnz : nonzeroVals (grayOk im) ≠ []) :
    meanNonzero (grayOk im) = some (((nonzeroVals (grayOk im)).sum : ℚ) /
      ((nonzeroVals (grayOk im)).length : ℚ)) ∧
    (∀ i j, i < im.length → j < width im →
      (((maskOf (grayOk im)).getD i []).getD j false = true ↔
        ((((grayOk im).getD i []).getD j 0 : ℚ) >
          (((nonzeroVals (grayOk im)).sum : ℚ) /
            ((nonzeroVals (grayOk im)).length : ℚ)) / 10))) ∧
    (∀ i, i ∈ qualifying ((maskOf (grayOk im)).map fun r => r.count true) (width im) ↔
      (i < im.length ∧
        ((((maskOf (grayOk im)).getD i []).count true : ℚ) > (width im : ℚ) * 2 / 100))) ∧
    (∀ j, j ∈ qualifying ((List.range (width im)).map fun jj =>
        ((maskOf (grayOk im)).map fun r => r.getD jj false).count true) im.length ↔
      (j < width im ∧
        ((((maskOf (grayOk im)).map fun r => r.getD j false).count true : ℚ) >
          (im.length : ℚ) * 2 / 100))) ∧
    (qualifying ((maskOf (grayOk im)).map fun r => r.count true) (width im) ≠ [] →
      qualifying ((List.range (width im)).map fun jj =>
        ((maskOf (grayOk im)).map fun r => r.getD jj false).count true) im.length ≠ [] →
      cropStep im = Except.ok (cropBox im
        (npMin (qualifying ((maskOf (grayOk im)).map fun r => r.count true) (width im)))
        (npMax (qualifying ((maskOf (grayOk im)).map fun r => r.count true) (width im)))
        (npMin (qualifying ((List.range (width im)).map fun jj =>
          ((maskOf (grayOk im)).map fun r => r.getD jj false).count true) im.length))
        (npMax (qualifying ((List.range (width im)).map fun jj =>
          ((maskOf (grayOk im)).map fun r => r.getD jj false).count true) im.length)))) := by
  obtain ⟨⟨h1, h2, hrect⟩, hc⟩ := hv
  have hlen : (nonzeroVals (grayOk im)).length ≠ 0 :=
    fun h0 => hnz (List.length_eq_zero.mp h0)
  have hmean : meanNonzero (grayOk im) = some (((nonzeroVals (grayOk im)).sum : ℚ) /
      ((nonzeroVals (grayOk im)).length : ℚ)) := by
    unfold meanNonzero
    rw [if_neg hlen]
  refine ⟨hmean, ?_, ?_, ?_, ?_⟩
  · intro i j hi hj
    have hglen : (grayOk im).length = im.length := by simp [grayOk]
    have hrowi : (grayOk im).getD i [] = (im.getD i []).map grayOfPixel :=
      getD_map_lt _ im i hi [] []
    have hrowlen : ((grayOk im).getD i []).length = width im := by
      rw [hrowi, List.length_map]
      have : im.getD i [] ∈ im := by
        rw [List.getD_eq_getElem _ _ hi]
        exact List.getElem_mem hi
      exact (hrect _ this).1
    have hmaskrow : (maskOf (grayOk im)).getD i [] =
        ((grayOk im).getD i []).map (maskPixel (meanNonzero (grayOk im))) :=
      getD_map_lt _ (grayOk im) i (by rw [hglen]; exact hi) [] []
    have hentry : ((maskOf (grayOk im)).getD i []).getD j false =
        maskPixel (meanNonzero (grayOk im)) (((grayOk im).getD i []).getD j 0) := by
      rw [hmaskrow]
      exact getD_map_lt _ _ j (by rw [hrowlen]; exact hj) false 0
    rw [hentry, hmean]
    unfold maskPixel
    rw [decide_eq_true_eq]
    constructor
    · intro h
      have heq : (0.1 : ℚ) * (((nonzeroVals (grayOk im)).sum : ℚ) /
          ((nonzeroVals (grayOk im)).length : ℚ)) =
          (((nonzeroVals (grayOk im)).sum : ℚ) /
            ((nonzeroVals (grayOk im)).length : ℚ)) / 10 := by
        rw [show (0.1:ℚ) = 1/10 from by norm_num]
        ring
      rw [gt_iff_lt, ← heq]
      exact h
    · intro h
      have heq : (0.1 : ℚ) * (((nonzeroVals (grayOk im)).sum : ℚ) /
          ((nonzeroVals (grayOk im)).length : ℚ)) =
          (((nonzeroVals (grayOk im)).sum : ℚ) /
            ((nonzeroVals (grayOk im)).length : ℚ)) / 10 := by
        rw [show (0.1:ℚ) = 1/10 from by norm_num]
        ring
      rw [gt_iff_lt, heq]
      exact h
  · intro i
    unfold qualifying
    rw [List.mem_filter, List.mem_range, List.length_map]
    have hmlen : (maskOf (grayOk im)).length = im.length := by simp [maskOf, grayOk]
    rw [hmlen]
    constructor
    · rintro ⟨hi, hdec⟩
      rw [decide_eq_true_eq] at hdec
      have hsum : ((maskOf (grayOk im)).map fun r => r.count true).getD i 0 =
          ((maskOf (grayOk im)).getD i []).count true :=
        getD_map_lt _ _ i (by rw [hmlen]; exact hi) 0 []
      rw [hsum] at hdec
      refine ⟨hi, ?_⟩
      have hpc : (width im : ℚ) * percentage = (width im : ℚ) * 2 / 100 := by
        rw [show (percentage:ℚ) = 2/100 from by norm_num [percentage]]
        ring
      rw [gt_iff_lt, ← hpc]
      exact hdec
    · rintro ⟨hi, hgt⟩
      refine ⟨hi, ?_⟩
      rw [decide_eq_true_eq]
      have hsum : ((maskOf (grayOk im)).map fun r => r.count true).getD i 0 =
          ((maskOf (grayOk im)).getD i []).count true :=
        getD_map_lt _ _ i (by rw [hmlen]; exact hi) 0 []
      rw [hsum]
      have hpc : (width im : ℚ) * percentage = (width im : ℚ) * 2 / 100 := by
        rw [show (percentage:ℚ) = 2/100 from by norm_num [percentage]]
        ring
      rw [gt_iff_lt, hpc]
      exact hgt
  · intro j
    unfold qualifying
    rw [List.mem_filter, List.mem_range, List.length_map, List.length_range]
    constructor
    · rintro ⟨hj, hdec⟩
      rw [decide_eq_true_eq] at hdec
      have hsum : ((List.range (width im)).map fun jj =>
          ((maskOf (grayOk im)).map fun r => r.getD jj false).count true).getD j 0 =
          ((maskOf (grayOk im)).map fun r => r.getD ((List.range (width im)).getD j 0) false).count true :=
        getD_map_lt _ _ j (by simpa using hj) 0 0
      have hrj : (List.range (width im)).getD j 0 = j := by
        rw [List.getD_eq_getElem _ _ (by simpa using hj)]
        simp
      rw [hsum, hrj] at hdec
      refine ⟨hj, ?_⟩
      have hpc : (im.length : ℚ) * percentage = (im.length : ℚ) * 2 / 100 := by
        rw [show (percentage:ℚ) = 2/100 from by norm_num [percentage]]
        ring
      rw [gt_iff_lt, ← hpc]
      exact hdec
    · rintro ⟨hj, hgt⟩
      refine ⟨hj, ?_⟩
      rw [decide_eq_true_eq]
      have hsum : ((List.range (width im)).map fun jj =>
          ((maskOf (grayOk im)).map fun r => r.getD jj false).count true).getD j 0 =
          ((maskOf (grayOk im)).map fun r => r.getD ((List.range (width im)).getD j 0) false).count true :=
        getD_map_lt _ _ j (by simpa using hj) 0 0
      have hrj : (List.range (width im)).getD j 0 = j := by
        rw [List.getD_eq_getElem _ _ (by simpa using hj)]
        simp
      rw [hsum, hrj]
      have hpc : (im.length : ℚ) * percentage = (im.length : ℚ) * 2 / 100 := by
        rw [show (percentage:ℚ) = 2/100 from by norm_num [percentage]]
        ring
      rw [gt_iff_lt, hpc]
      exact hgt
  · intro hr hcq
    unfold cropStep
    rw [cvtColor_ok im h1 h2 (Or.inl hc)]
    dsimp only
    rw [if_pos ⟨hr, hcq⟩]

/-- Witness for C4 at the concrete all-white 9x5 image. -/
theorem mask_threshold_rows_cols_crop_witness :
    ValidBGR bright9x5 ∧ nonzeroVals (grayOk bright9x5) ≠ [] ∧
      meanNonzero (grayOk bright9x5) = some (((nonzeroVals (grayOk bright9x5)).sum : ℚ) /
        ((nonzeroVals (grayOk bright9x5)).length : ℚ)) :=
  ⟨by decide, by decide,
    (mask_threshold_rows_cols_crop bright9x5 (by decide) (by decide)).1⟩

/-- C9 counterexample: a single-channel (grayscale) input does not go through
the analysis; `cv2.cvtColor(img, cv2.COLOR_BGR2GRAY)` raises on it. -/
theorem single_channel_raises_cx :
    channels oneChan1x1 = 1 ∧
    trim_and_resize oneChan1x1 10 =
      Except.error "invalid number of channels in input image" := by
  exact ⟨by decide, by decide⟩

/-- C9 as amended: `trim_and_resize` accepts any well-formed image with 3 or 4
channels without raising and produces a square output; a single-channel input
instead raises in the grayscale conversion. -/
theorem three_or_four_channels_ok (im : RawImage) (output_size : Nat)
    (hv : ValidImage im) (hc : channels im = 3 ∨ channels im = 4) :
    ∃ s, trim_and_resize im output_size = Except.ok s ∧
      s.canvasW = s.canvasH := by
  obtain ⟨h1, h2, _⟩ := hv
  obtain ⟨c, hcrop⟩ := cropStep_exists_ok im h1 h2 hc
  refine ⟨resizeStep c output_size, ?_, rfl⟩
  unfold trim_and_resize
  rw [hcrop]

/-- Witness for the amended C9 at a concrete 1x1 four-channel image. -/
theorem three_or_four_channels_ok_witness :
    ValidImage fourChan1x1 ∧ channels fourChan1x1 = 4 ∧
      ∃ s, trim_and_resize fourChan1x1 8 = Except.ok s ∧ s.canvasW = s.canvasH :=
  ⟨by decide, by decide,
    three_or_four_channels_ok fourChan1x1 8 (by decide) (Or.inr (by decide))⟩

/-- Witness for the amended C2 at the all-white 9x5 image, output size 100. -/
theorem trim_and_resize_floor_padding_witness :
    cropStep bright9x5 = Except.ok bright9x5 ∧
      bright9x5.length ≤ width bright9x5 ∧ 0 < width bright9x5 ∧
      ∃ s, trim_and_resize bright9x5 100 = Except.ok s ∧
        s.contentW = 100 ∧
        s.contentH = bright9x5.length * 100 / width bright9x5 ∧
        s.pasteX = 0 ∧
        s.pasteY = (100 - s.contentH) / 2 ∧
        ((100 - s.contentH) - s.pasteY = s.pasteY ∨
          (100 - s.contentH) - s.pasteY = s.pasteY + 1) ∧
        ((100 - s.contentH) % 2 = 0 → (100 - s.contentH) - s.pasteY = s.pasteY) :=
  ⟨by rw [cropStep_eq_cropStepN]; decide, by decide, by decide,
    trim_and_resize_floor_padding bright9x5 100 bright9x5
      (by rw [cropStep_eq_cropStepN]; decide) (by decide) (by decide)⟩


/-! ## Driver infrastructure: paths, filesystem monotonicity -/

theorem dropLast_append_pair (l : FPath) (a b : String) :
    (l ++ [a, b]).dropLast = l ++ [a] := by
  rw [show l ++ [a, b] = (l ++ [a]) ++ [b] by simp, List.dropLast_concat]

theorem concat_inj_fp {l1 l2 : FPath} {a c : String} (h : l1 ++ [a] = l2 ++ [c]) :
    l1 = l2 ∧ a = c := by
  constructor
  · have h2 := congrArg List.dropLast h
    simpa [List.dropLast_concat] using h2
  · have h2 := congrArg (fun l => List.getLastD l "") h
    simpa [List.getLastD_concat] using h2

theorem append_pair_inj {l1 l2 : FPath} {a b c d : String}
    (h : l1 ++ [a, b] = l2 ++ [c, d]) : l1 = l2 ∧ a = c ∧ b = d := by
  have h2 : (l1 ++ [a]) ++ [b] = (l2 ++ [c]) ++ [d] := by
    rw [show (l1 ++ [a]) ++ [b] = l1 ++ [a, b] by simp,
      show (l2 ++ [c]) ++ [d] = l2 ++ [c, d] by simp, h]
  obtain ⟨h3, hbd⟩ := concat_inj_fp h2
  obtain ⟨h4, hac⟩ := concat_inj_fp h3
  exact ⟨h4, hac, hbd⟩

theorem path_eq_dropLast_concat (p : FPath) (hp : p ≠ []) :
    p = p.dropLast ++ [p.getLastD ""] := by
  induction p using List.reverseRecOn with
  | nil => exact absurd rfl hp
  | append_singleton l a _ => rw [List.dropLast_concat, List.getLastD_concat]

theorem lookup_files_append (fs fs2 : FS) (L : List (FPath × FileKind)) {p : FPath}
    {d : FileKind} (h : fs.lookupFile p = some d) (hf : fs2.files = fs.files ++ L) :
    fs2.lookupFile p = some d := by
  unfold FS.lookupFile at h ⊢
  rw [hf, List.find?_append]
  cases hfind : fs.files.find? (fun e => decide (e.1 = p)) with
  | none => rw [hfind] at h; simp at h
  | some e => rw [hfind] at h; simpa using h

theorem pexists_false_lookup_none {fs : FS} {p : FPath} (h : fs.pexists p = false) :
    fs.files.find? (fun e => decide (e.1 = p)) = none := by
  unfold FS.pexists FS.lookupFile at h
  rw [Bool.or_eq_false_iff] at h
  obtain ⟨-, h2⟩ := h
  cases hfind : fs.files.find? (fun e => decide (e.1 = p)) with
  | none => rfl
  | some e => rw [hfind] at h2; simp at h2

/-- The only filesystem changes the driver makes: directories of the form
`outRoot/s` (or `outRoot` itself, handled separately at the top), and written
image files `outRoot/s/m` whose name `m` passed the extension filter. -/
def Evolves (outR : FPath) (fs fs2 : FS) : Prop :=
  (∃ D, fs2.dirs = fs.dirs ++ D ∧ ∀ d ∈ D, ∃ s, d = outR ++ [s]) ∧
  (∃ L, fs2.files = fs.files ++ L ∧
    ∀ e ∈ L, ∃ s m i, e.1 = outR ++ [s, m] ∧ e.2 = FileKind.written i ∧ hasImageExt m = true)

theorem evolves_refl (outR : FPath) (fs : FS) : Evolves outR fs fs :=
  ⟨⟨[], by simp, by simp⟩, ⟨[], by simp, by simp⟩⟩

theorem evolves_trans {outR : FPath} {fs1 fs2 fs3 : FS}
    (h1 : Evolves outR fs1 fs2) (h2 : Evolves outR fs2 fs3) : Evolves outR fs1 fs3 := by
  obtain ⟨⟨D1, hD1, hDs1⟩, ⟨L1, hL1, hLs1⟩⟩ := h1
  obtain ⟨⟨D2, hD2, hDs2⟩, ⟨L2, hL2, hLs2⟩⟩ := h2
  refine ⟨⟨D1 ++ D2, by rw [hD2, hD1, List.append_assoc], ?_⟩,
    ⟨L1 ++ L2, by rw [hL2, hL1, List.append_assoc], ?_⟩⟩
  · intro d hd
    rcases List.mem_append.mp hd with h | h
    exacts [hDs1 d h, hDs2 d h]
  · intro e he
    rcases List.mem_append.mp he with h | h
    exacts [hLs1 e h, hLs2 e h]

theorem lookup_mono {outR : FPath} {fs fs2 : FS} (hev : Evolves outR fs fs2)
    {p : FPath} {d : FileKind} (h : fs.lookupFile p = some d) :
    fs2.lookupFile p = some d := by
  obtain ⟨-, ⟨L, hL, -⟩⟩ := hev
  exact lookup_files_append fs fs2 L h hL

theorem lookup_isSome_mono {outR : FPath} {fs fs2 : FS} (hev : Evolves outR fs fs2)
    {p : FPath} (h : (fs.lookupFile p).isSome) : (fs2.lookupFile p).isSome := by
  obtain ⟨d, hd⟩ := Option.isSome_iff_exists.mp h
  rw [lookup_mono hev hd]
  rfl

theorem pexists_mono {outR : FPath} {fs fs2 : FS} (hev : Evolves outR fs fs2)
    {p : FPath} (h : fs.pexists p = true) : fs2.pexists p = true := by
  obtain ⟨⟨D, hD, -⟩, ⟨L, hL, -⟩⟩ := hev
  unfold FS.pexists at h ⊢
  rw [Bool.or_eq_true] at h ⊢
  rcases h with h | h
  · left
    rw [decide_eq_true_eq] at h ⊢
    rw [hD]
    exact List.mem_append_left _ h
  · right
    obtain ⟨d, hd⟩ := Option.isSome_iff_exists.mp h
    rw [lookup_files_append fs fs2 L hd hL]
    rfl

theorem imread_mono {outR : FPath} {fs fs2 : FS} (hev : Evolves outR fs fs2)
    {p : FPath} (h : (fs.lookupFile p).isSome) : imread fs2 p = imread fs p := by
  obtain ⟨d, hd⟩ := Option.isSome_iff_exists.mp h
  unfold imread
  rw [hd, lookup_mono hev hd]

/-! ## Per-file step lemmas -/

theorem ensureDir_files (fs : FS) (p : FPath) : (fs.ensureDir p).files = fs.files := by
  unfold FS.ensureDir
  split
  · rfl
  · rfl

theorem ensureDir_pexists_self (fs : FS) (p : FPath) :
    (fs.ensureDir p).pexists p = true := by
  unfold FS.ensureDir
  split
  · assumption
  · unfold FS.pexists FS.mkdir
    rw [Bool.or_eq_true]
    left
    simp

theorem ensureDir_eq_of_pexists {fs : FS} {p : FPath} (h : fs.pexists p = true) :
    fs.ensureDir p = fs := by
  unfold FS.ensureDir
  rw [if_pos h]

theorem ensureDir_evolves (outR : FPath) (fs : FS) {p : FPath} (hp : ∃ s, p = outR ++ [s]) :
    Evolves outR fs (fs.ensureDir p) := by
  unfold FS.ensureDir
  split
  · exact evolves_refl outR fs
  · exact ⟨⟨[p], rfl, by simpa using hp⟩, ⟨[], by simp [FS.mkdir], by simp⟩⟩

theorem imread_ensureDir (fs : FS) (p q : FPath) :
    imread (fs.ensureDir p) q = imread fs q := by
  unfold imread FS.lookupFile
  rw [ensureDir_files]

theorem lookup_ensureDir (fs : FS) (p q : FPath) :
    (fs.ensureDir p).lookupFile q = fs.lookupFile q := by
  unfold FS.lookupFile
  rw [ensureDir_files]

theorem pexists_write_self (fs : FS) (p : FPath) (d : FileKind) :
    (fs.write p d).pexists p = true := by
  unfold FS.pexists FS.write FS.lookupFile
  rw [Bool.or_eq_true]
  right
  rw [List.find?_append]
  cases hf : fs.files.find? (fun e => decide (e.1 = p)) with
  | some e => simp
  | none => simp

theorem pexists_write_of_pexists {fs : FS} {q : FPath} (p : FPath) (d : FileKind)
    (h : fs.pexists q = true) : (fs.write p d).pexists q = true := by
  unfold FS.pexists at h ⊢
  rw [Bool.or_eq_true] at h ⊢
  rcases h with h | h
  · left
    exact h
  · right
    obtain ⟨e, he⟩ := Option.isSome_iff_exists.mp h
    rw [lookup_files_append fs (fs.write p d) [(p, d)] he rfl]
    rfl

theorem write_evolves (outR : FPath) (fs : FS) (s m : String) (i : SquareImage)
    (hm : hasImageExt m = true) :
    Evolves outR fs (fs.write (outR ++ [s, m]) (FileKind.written i)) :=
  ⟨⟨[], by simp [FS.write], by simp⟩,
    ⟨[(outR ++ [s, m], FileKind.written i)], rfl, by
      intro e he
      simp only [List.mem_singleton] at he
      subst he
      exact ⟨s, m, i, rfl, rfl, hm⟩⟩⟩

/-- After the attempt on one file, either the output file exists, or the output
subdirectory exists and the load-or-transform fails on the current state (so a
retry is a no-op).  This is the per-file postcondition of the driver. -/
def AttemptNoop (sz : Nat) (inR outR : FPath) (fs : FS) (sub name : String) : Prop :=
  fs.pexists (outR ++ [sub, name]) = true ∨
  (fs.pexists (outR ++ [sub]) = true ∧
    match imread fs (inR ++ [sub, name]) with
    | none => True
    | some img => ∃ e, trim_and_resize img sz = Except.error e)

theorem attemptNoop_mono {sz : Nat} {inR outR : FPath} {fs fs2 : FS} {sub name : String}
    (hev : Evolves outR fs fs2) (hl : (fs.lookupFile (inR ++ [sub, name])).isSome)
    (h : AttemptNoop sz inR outR fs sub name) : AttemptNoop sz inR outR fs2 sub name := by
  rcases h with h | ⟨h1, h2⟩
  · exact Or.inl (pexists_mono hev h)
  · refine Or.inr ⟨pexists_mono hev h1, ?_⟩
    rw [imread_mono hev hl]
    exact h2

theorem processFile_skip (sz : Nat) (inR outR : FPath) (sub : String)
    (st : FS × List LogMsg) (name : String)
    (h : st.1.pexists (outR ++ [sub, name]) = true) :
    processFile sz inR outR sub st name =
      (st.1, st.2 ++ [LogMsg.skippingExists (outR ++ [sub, name])]) := by
  unfold processFile
  simp only [h, if_true]

theorem processFile_noop (sz : Nat) (inR outR : FPath) (sub : String)
    (st : FS × List LogMsg) (name : String)
    (h : AttemptNoop sz inR outR st.1 sub name) :
    (processFile sz inR outR sub st name).1 = st.1 := by
  rcases h with h | ⟨hdir, hload⟩
  · rw [processFile_skip sz inR outR sub st name h]
  · by_cases hout : st.1.pexists (outR ++ [sub, name]) = true
    · rw [processFile_skip sz inR outR sub st name hout]
    · simp only [Bool.not_eq_true] at hout
      unfold processFile tryBody
      simp only [hout, Bool.false_eq_true, if_false, dropLast_append_pair,
        ensureDir_eq_of_pexists hdir]
      cases himg : imread st.1 (inR ++ [sub, name]) with
      | none => simp [himg]
      | some img =>
        rw [himg] at hload
        obtain ⟨e, he⟩ := hload
        simp [himg, he]

theorem processFile_establishes (sz : Nat) (inR outR : FPath) (sub : String)
    (st : FS × List LogMsg) (name : String) :
    AttemptNoop sz inR outR (processFile sz inR outR sub st name).1 sub name := by
  by_cases hout : st.1.pexists (outR ++ [sub, name]) = true
  · rw [processFile_skip sz inR outR sub st name hout]
    exact Or.inl hout
  · simp only [Bool.not_eq_true] at hout
    unfold processFile tryBody
    simp only [hout, Bool.false_eq_true, if_false, dropLast_append_pair]
    cases himg : imread (st.1.ensureDir (outR ++ [sub])) (inR ++ [sub, name]) with
    | none =>
      simp only
      refine Or.inr ⟨ensureDir_pexists_self st.1 (outR ++ [sub]), ?_⟩
      rw [himg]
      trivial
    | some img =>
      cases htr : trim_and_resize img sz with
      | error e =>
        simp only [htr]
        refine Or.inr ⟨ensureDir_pexists_self st.1 (outR ++ [sub]), ?_⟩
        rw [himg]
        exact ⟨e, htr⟩
      | ok t =>
        simp only [htr]
        exact Or.inl (pexists_write_self _ _ _)

theorem processFile_evolves (sz : Nat) (inR outR : FPath) (sub : String)
    (st : FS × List LogMsg) (name : String) (hext : hasImageExt name = true) :
    Evolves outR st.1 (processFile sz inR outR sub st name).1 := by
  by_cases hout : st.1.pexists (outR ++ [sub, name]) = true
  · rw [processFile_skip sz inR outR sub st name hout]
    exact evolves_refl outR st.1
  · simp only [Bool.not_eq_true] at hout
    unfold processFile tryBody
    simp only [hout, Bool.false_eq_true, if_false, dropLast_append_pair]
    have hev1 : Evolves outR st.1 (st.1.ensureDir (outR ++ [sub])) :=
      ensureDir_evolves outR st.1 ⟨sub, rfl⟩
    cases himg : imread (st.1.ensureDir (outR ++ [sub])) (inR ++ [sub, name]) with
    | none => simpa using hev1
    | some img =>
      cases htr : trim_and_resize img sz with
      | error e =>
        simp only [htr]
        exact hev1
      | ok t =>
        simp only [htr]
        exact evolves_trans hev1 (write_evolves outR _ sub name (apply_clahe t) hext)

/-! ## Folding the per-file loop -/

theorem foldl_processFile_noop (sz : Nat) (inR outR : FPath) (sub : String)
    (names : List String) :
    ∀ st : FS × List LogMsg, (∀ n ∈ names, AttemptNoop sz inR outR st.1 sub n) →
    (names.foldl (processFile sz inR outR sub) st).1 = st.1 := by
  induction names with
  | nil => intro st _; rfl
  | cons n rest ih =>
    intro st h
    rw [List.foldl_cons]
    have h1 : (processFile sz inR outR sub st n).1 = st.1 :=
      processFile_noop sz inR outR sub st n (h n (List.mem_cons_self n rest))
    rw [ih (processFile sz inR outR sub st n) ?_, h1]
    intro m hm
    rw [h1]
    exact h m (List.mem_cons_of_mem n hm)

theorem foldl_processFile_evolves (sz : Nat) (inR outR : FPath) (sub : String)
    (names : List String) :
    ∀ st : FS × List LogMsg, (∀ n ∈ names, hasImageExt n = true) →
    Evolves outR st.1 (names.foldl (processFile sz inR outR sub) st).1 := by
  induction names with
  | nil => intro st _; exact evolves_refl outR st.1
  | cons n rest ih =>
    intro st hext
    rw [List.foldl_cons]
    exact evolves_trans
      (processFile_evolves sz inR outR sub st n (hext n (List.mem_cons_self n rest)))
      (ih (processFile sz inR outR sub st n) fun m hm => hext m (List.mem_cons_of_mem n hm))

theorem foldl_processFile_post (sz : Nat) (inR outR : FPath) (sub : String)
    (names : List String) :
    ∀ st : FS × List LogMsg,
    (∀ n ∈ names, (st.1.lookupFile (inR ++ [sub, n])).isSome) →
    (∀ n ∈ names, hasImageExt n = true) →
    ∀ n ∈ names, AttemptNoop sz inR outR (names.foldl (processFile sz inR outR sub) st).1 sub n := by
  induction names with
  | nil => intro st _ _ n hn; exact absurd hn (List.not_mem_nil n)
  | cons n0 rest ih =>
    intro st hin hext n hn
    rw [List.foldl_cons]
    have hev1 : Evolves outR st.1 (processFile sz inR outR sub st n0).1 :=
      processFile_evolves sz inR outR sub st n0 (hext n0 (List.mem_cons_self n0 rest))
    have hev2 : Evolves outR (processFile sz inR outR sub st n0).1
        (rest.foldl (processFile sz inR outR sub) (processFile sz inR outR sub st n0)).1 :=
      foldl_processFile_evolves sz inR outR sub rest _
        fun m hm => hext m (List.mem_cons_of_mem n0 hm)
    rcases List.mem_cons.mp hn with rfl | hn'
    · exact attemptNoop_mono hev2
        (lookup_isSome_mono hev1 (hin n (List.mem_cons_self n rest)))
        (processFile_establishes sz inR outR sub st n)
    · exact ih (processFile sz inR outR sub st n0)
        (fun m hm => lookup_isSome_mono hev1 (hin m (List.mem_cons_of_mem n0 hm)))
        (fun m hm => hext m (List.mem_cons_of_mem n0 hm)) n hn'

/-! ## Listing lemmas -/

theorem listdir_cond_path {e : FPath × FileKind} {dir : FPath} {n : String}
    (hcond : (if e.1.dropLast = dir ∧ e.1 ≠ [] then some (e.1.getLastD "") else none) =
      some n) : e.1 = dir ++ [n] := by
  by_cases hc : e.1.dropLast = dir ∧ e.1 ≠ []
  · rw [if_pos hc] at hcond
    have hn : e.1.getLastD "" = n := by
      injection hcond
    rw [path_eq_dropLast_concat e.1 hc.2, hc.1, hn]
  · rw [if_neg hc] at hcond
    simp at hcond

theorem mem_listdir_lookup_isSome (fs : FS) (dir : FPath) (name : String)
    (h : name ∈ fs.listdir dir) : (fs.lookupFile (dir ++ [name])).isSome := by
  unfold FS.listdir at h
  obtain ⟨e, he, hcond⟩ := List.mem_filterMap.mp h
  have hpath := listdir_cond_path hcond
  unfold FS.lookupFile
  have h2 : (fs.files.find? (fun e2 => decide (e2.1 = dir ++ [name]))).isSome := by
    rw [List.find?_isSome]
    exact ⟨e, he, by rw [hpath]; simp⟩
  obtain ⟨e2, he2⟩ := Option.isSome_iff_exists.mp h2
  rw [he2]
  rfl

theorem listdir_evolves {outR : FPath} {fs fs2 : FS} (hev : Evolves outR fs fs2)
    (dir : FPath) :
    ∀ n ∈ fs2.listdir dir, n ∈ fs.listdir dir ∨
      ∃ e, e ∈ fs2.files ∧
        (∃ s m i, e.1 = outR ++ [s, m] ∧ e.2 = FileKind.written i ∧ hasImageExt m = true) ∧
        e.1 = dir ++ [n] := by
  obtain ⟨-, ⟨L, hL, hLs⟩⟩ := hev
  intro n hn
  unfold FS.listdir at hn
  rw [hL, List.filterMap_append] at hn
  rcases List.mem_append.mp hn with h | h
  · left
    exact h
  · right
    obtain ⟨e, heL, hcond⟩ := List.mem_filterMap.mp h
    exact ⟨e, by rw [hL]; exact List.mem_append_right _ heL, hLs e heL,
      listdir_cond_path hcond⟩

/-! ## Subfolder-level lemmas -/

theorem processSubfolder_missing (sz : Nat) (inR outR : FPath)
    (st : FS × List LogMsg) (sub : String)
    (h : st.1.pexists (inR ++ [sub]) = false) :
    processSubfolder sz inR outR st sub = (st.1, st.2 ++ [LogMsg.subfolderMissing sub]) := by
  unfold processSubfolder
  simp only [h, Bool.false_eq_true, if_false]

theorem processSubfolder_present (sz : Nat) (inR outR : FPath)
    (st : FS × List LogMsg) (sub : String)
    (h : st.1.pexists (inR ++ [sub]) = true) :
    processSubfolder sz inR outR st sub =
      ((st.1.listdir (inR ++ [sub])).filter hasImageExt).foldl
        (processFile sz inR outR sub) st := by
  unfold processSubfolder
  simp only [h, if_true]

theorem processSubfolder_evolves (sz : Nat) (inR outR : FPath)
    (st : FS × List LogMsg) (sub : String) :
    Evolves outR st.1 (processSubfolder sz inR outR st sub).1 := by
  by_cases h : st.1.pexists (inR ++ [sub]) = true
  · rw [processSubfolder_present sz inR outR st sub h]
    exact foldl_processFile_evolves sz inR outR sub _ st
      fun n hn => (List.mem_filter.mp hn).2
  · simp only [Bool.not_eq_true] at h
    rw [processSubfolder_missing sz inR outR st sub h]
    exact evolves_refl outR st.1

theorem processSubfolder_post (sz : Nat) (inR outR : FPath)
    (st : FS × List LogMsg) (sub : String)
    (h : st.1.pexists (inR ++ [sub]) = true) :
    ∀ n ∈ (st.1.listdir (inR ++ [sub])).filter hasImageExt,
      AttemptNoop sz inR outR (processSubfolder sz inR outR st sub).1 sub n := by
  rw [processSubfolder_present sz inR outR st sub h]
  exact foldl_processFile_post sz inR outR sub _ st
    (fun n hn => by
      have h2 := mem_listdir_lookup_isSome st.1 (inR ++ [sub]) n (List.mem_filter.mp hn).1
      rwa [show inR ++ [sub] ++ [n] = inR ++ [sub, n] by simp] at h2)
    (fun n hn => (List.mem_filter.mp hn).2)

/-- Every file listed under an existing input subfolder is, after the fold,
either already produced (its output path exists) or un-processable on the final
state. -/
def GoodSub (sz : Nat) (inR outR : FPath) (fs : FS) (sub : String) : Prop :=
  ∀ n, fs.pexists (inR ++ [sub]) = true →
    n ∈ (fs.listdir (inR ++ [sub])).filter hasImageExt →
    AttemptNoop sz inR outR fs sub n

theorem foldl_subfolders_evolves (sz : Nat) (inR outR : FPath) (subs : List String) :
    ∀ st : FS × List LogMsg,
    Evolves outR st.1 (subs.foldl (processSubfolder sz inR outR) st).1 := by
  induction subs with
  | nil => intro st; exact evolves_refl outR st.1
  | cons sub rest ih =>
    intro st
    rw [List.foldl_cons]
    exact evolves_trans (processSubfolder_evolves sz inR outR st sub)
      (ih (processSubfolder sz inR outR st sub))

theorem foldl_subfolders_good (sz : Nat) (inR outR : FPath) (subs : List String) :
    ∀ st : FS × List LogMsg, (∀ s ∈ subs, hasImageExt s = false) →
    ∀ sub ∈ subs,
      GoodSub sz inR outR (subs.foldl (processSubfolder sz inR outR) st).1 sub := by
  induction subs with
  | nil => intro st _ sub hsub; exact absurd hsub (List.not_mem_nil sub)
  | cons sub0 rest ih =>
    intro st hno sub hsub
    rw [List.foldl_cons]
    rcases List.mem_cons.mp hsub with rfl | hsub'
    · unfold GoodSub
      intro n hpe hmem
      set st1 := processSubfolder sz inR outR st sub with hst1
      have hEv1 : Evolves outR st.1 st1.1 := processSubfolder_evolves sz inR outR st sub
      have hEv2 : Evolves outR st1.1 (rest.foldl (processSubfolder sz inR outR) st1).1 :=
        foldl_subfolders_evolves sz inR outR rest st1
      have hEv : Evolves outR st.1 (rest.foldl (processSubfolder sz inR outR) st1).1 :=
        evolves_trans hEv1 hEv2
      have hmem' := List.mem_filter.mp hmem
      rcases listdir_evolves hEv (inR ++ [sub]) n hmem'.1 with hold | hnew
      · by_cases hsp : st.1.pexists (inR ++ [sub]) = true
        · have hAN := processSubfolder_post sz inR outR st sub hsp n
            (List.mem_filter.mpr ⟨hold, hmem'.2⟩)
          refine attemptNoop_mono hEv2 ?_ hAN
          have h2 := mem_listdir_lookup_isSome st.1 (inR ++ [sub]) n hold
          rw [show inR ++ [sub] ++ [n] = inR ++ [sub, n] by simp] at h2
          exact lookup_isSome_mono hEv1 h2
        · simp only [Bool.not_eq_true] at hsp
          left
          obtain ⟨⟨D, hD, hDs⟩, ⟨L, hL, hLs⟩⟩ := hEv
          unfold FS.pexists at hpe
          rw [Bool.or_eq_true] at hpe
          rcases hpe with hdirs | hfile
          · rw [decide_eq_true_eq] at hdirs
            rw [hD] at hdirs
            rcases List.mem_append.mp hdirs with hmemd | hmemD
            · exfalso
              unfold FS.pexists at hsp
              rw [Bool.or_eq_false_iff] at hsp
              have h3 := hsp.1
              rw [decide_eq_false_iff_not] at h3
              exact h3 hmemd
            · obtain ⟨s2, hs2⟩ := hDs _ hmemD
              obtain ⟨hio, -⟩ := concat_inj_fp hs2
              have hsome := mem_listdir_lookup_isSome
                (rest.foldl (processSubfolder sz inR outR) st1).1 (inR ++ [sub]) n hmem'.1
              have hpath : inR ++ [sub] ++ [n] = outR ++ [sub, n] := by
                rw [hio]
                simp
              rw [hpath] at hsome
              unfold FS.pexists
              rw [Bool.or_eq_true]
              right
              exact hsome
          · exfalso
            obtain ⟨d, hd⟩ := Option.isSome_iff_exists.mp hfile
            unfold FS.lookupFile at hd
            rw [hL, List.find?_append] at hd
            have hnone : st.1.files.find? (fun e => decide (e.1 = inR ++ [sub])) = none :=
              pexists_false_lookup_none hsp
            rw [hnone, Option.none_or] at hd
            cases hfindL : L.find? (fun e => decide (e.1 = inR ++ [sub])) with
            | none => rw [hfindL] at hd; simp at hd
            | some e2 =>
              have he2L : e2 ∈ L := List.mem_of_find?_eq_some hfindL
              have he2p : e2.1 = inR ++ [sub] := by
                have h3 := List.find?_some hfindL
                rwa [decide_eq_true_eq] at h3
              obtain ⟨s2, m2, i2, hep, -, hextm⟩ := hLs e2 he2L
              rw [hep] at he2p
              have h3 : (outR ++ [s2]) ++ [m2] = inR ++ [sub] := by
                rw [← he2p]
                simp
              obtain ⟨-, hmsub⟩ := concat_inj_fp h3
              rw [hmsub, hno sub (List.mem_cons_self sub rest)] at hextm
              exact Bool.false_ne_true hextm
      · obtain ⟨e, heF, ⟨s2, m2, i2, hep, -, -⟩, hedir⟩ := hnew
        have hpair : outR ++ [s2, m2] = inR ++ [sub, n] := by
          rw [← hep, hedir]
          simp
        obtain ⟨hio, hs2, hm2⟩ := append_pair_inj hpair
        left
        have hsome : ((rest.foldl (processSubfolder sz inR outR) st1).1.lookupFile
            (outR ++ [sub, n])).isSome := by
          unfold FS.lookupFile
          have h2 : ((rest.foldl (processSubfolder sz inR outR) st1).1.files.find?
              (fun e2 => decide (e2.1 = outR ++ [sub, n]))).isSome := by
            rw [List.find?_isSome]
            refine ⟨e, heF, ?_⟩
            rw [hep, hs2, hm2]
            simp
          obtain ⟨e2, he2⟩ := Option.isSome_iff_exists.mp h2
          rw [he2]
          rfl
        unfold FS.pexists
        rw [Bool.or_eq_true]
        right
        exact hsome
    · exact ih (processSubfolder sz inR outR st sub0)
        (fun s hs => hno s (List.mem_cons_of_mem sub0 hs)) sub hsub'

theorem foldl_subfolders_noop (sz : Nat) (inR outR : FPath) (subs : List String) :
    ∀ st : FS × List LogMsg, (∀ s ∈ subs, GoodSub sz inR outR st.1 s) →
    (subs.foldl (processSubfolder sz inR outR) st).1 = st.1 := by
  induction subs with
  | nil => intro st _; rfl
  | cons sub rest ih =>
    intro st hg
    rw [List.foldl_cons]
    have h1 : (processSubfolder sz inR outR st sub).1 = st.1 := by
      by_cases hsp : st.1.pexists (inR ++ [sub]) = true
      · rw [processSubfolder_present sz inR outR st sub hsp]
        exact foldl_processFile_noop sz inR outR sub _ st
          (fun n hn => hg sub (List.mem_cons_self sub rest) n hsp hn)
      · simp only [Bool.not_eq_true] at hsp
        rw [processSubfolder_missing sz inR outR st sub hsp]
    rw [ih (processSubfolder sz inR outR st sub) ?_, h1]
    intro s hs
    rw [h1]
    exact hg s (List.mem_cons_of_mem sub hs)

/-! ## The driver claims -/

/-- C5: running the batch driver a second time on the same input and output
roots changes nothing on disk: every file whose computed output path already
exists is skipped with only a log message (no load, no transform, no write),
and the filesystem after the second run equals the filesystem after the first
run. -/
theorem driver_second_run_noop (inR outR : FPath) (sz : Nat) (fs : FS) :
    (process_and_save_images inR outR sz (process_and_save_images inR outR sz fs).1).1 =
      (process_and_save_images inR outR sz fs).1 ∧
    ∀ (st : FS × List LogMsg) (sub name : String),
      st.1.pexists (outR ++ [sub, name]) = true →
      processFile sz inR outR sub st name =
        (st.1, st.2 ++ [LogMsg.skippingExists (outR ++ [sub, name])]) := by
  constructor
  · have hdef : ∀ g : FS, process_and_save_images inR outR sz g =
        subfolderNames.foldl (processSubfolder sz inR outR) (g.ensureDir outR, []) :=
      fun g => rfl
    have hGood : ∀ s ∈ subfolderNames,
        GoodSub sz inR outR (process_and_save_images inR outR sz fs).1 s := by
      rw [hdef fs]
      exact foldl_subfolders_good sz inR outR subfolderNames (fs.ensureDir outR, [])
        (by decide)
    have hEvT : Evolves outR (fs.ensureDir outR) (process_and_save_images inR outR sz fs).1 := by
      rw [hdef fs]
      exact foldl_subfolders_evolves sz inR outR subfolderNames (fs.ensureDir outR, [])
    have hout1 : (process_and_save_images inR outR sz fs).1.pexists outR = true :=
      pexists_mono hEvT (ensureDir_pexists_self fs outR)
    rw [hdef (process_and_save_images inR outR sz fs).1, ensureDir_eq_of_pexists hout1]
    exact foldl_subfolders_noop sz inR outR subfolderNames
      ((process_and_save_images inR outR sz fs).1, []) hGood
  · intro st sub name h
    exact processFile_skip sz inR outR sub st name h

/-- Witness for C5: a concrete state whose output file exists is skipped with
only the log message. -/
theorem driver_second_run_noop_witness :
    outFS.pexists (["out"] ++ ["0", "a.png"]) = true ∧
    processFile 7 ["in"] ["out"] "0" (outFS, []) "a.png" =
      (outFS, [] ++ [LogMsg.skippingExists (["out"] ++ ["0", "a.png"])]) :=
  ⟨by decide,
    (driver_second_run_noop ["in"] ["out"] 7 outFS).2 (outFS, []) "0" "a.png" (by decide)⟩

/-- C6 counterexample: a file whose load fails (here an undecodable source, so
`cv2.imread` returns the empty result) is skipped without writing any output,
but contrary to the claim nothing is logged for it: the complete log of the
run holds only the five missing-subfolder messages and no message at all about
`in/0/a.png`. -/
theorem load_failure_not_logged_cx :
    imread corruptFS ["in", "0", "a.png"] = none ∧
    process_and_save_images ["in"] ["out"] 10 corruptFS =
      ({ dirs := [["in"], ["in", "0"], ["out"], ["out", "0"]],
         files := [(["in", "0", "a.png"], FileKind.source none)] },
       [LogMsg.subfolderMissing "1", LogMsg.subfolderMissing "2",
        LogMsg.subfolderMissing "3", LogMsg.subfolderMissing "4",
        LogMsg.subfolderMissing "5"]) ∧
    (process_and_save_images ["in"] ["out"] 10 corruptFS).1.lookupFile
      ["out", "0", "a.png"] = none :=
  ⟨by decide, by decide, by decide⟩

/-- C6 as amended: when the load returns the empty result, the file is skipped
without writing any output and without any log message for it (the source has
no else branch on the `imread is not None` check), and the loop continues with
the remaining files from the state in which only the output subdirectory may
have been created. -/
theorem load_failure_silent_skip (sz : Nat) (inR outR : FPath) (sub name : String)
    (rest : List String) (st : FS × List LogMsg)
    (hout : st.1.pexists (outR ++ [sub, name]) = false)
    (hload : imread st.1 (inR ++ [sub, name]) = none) :
    processFile sz inR outR sub st name = (st.1.ensureDir (outR ++ [sub]), st.2) ∧
    (st.1.ensureDir (outR ++ [sub])).files = st.1.files ∧
    (name :: rest).foldl (processFile sz inR outR sub) st =
      rest.foldl (processFile sz inR outR sub) (st.1.ensureDir (outR ++ [sub]), st.2) := by
  have h1 : processFile sz inR outR sub st name =
      (st.1.ensureDir (outR ++ [sub]), st.2) := by
    unfold processFile tryBody
    simp only [hout, Bool.false_eq_true, if_false, dropLast_append_pair]
    rw [imread_ensureDir, hload]
    simp
  exact ⟨h1, ensureDir_files st.1 (outR ++ [sub]), by rw [List.foldl_cons, h1]⟩

/-- Witness for the amended C6 at the concrete corrupt-file state. -/
theorem load_failure_silent_skip_witness :
    corruptFS.pexists (["out"] ++ ["0", "a.png"]) = false ∧
    imread corruptFS (["in"] ++ ["0", "a.png"]) = none ∧
    (processFile 10 ["in"] ["out"] "0" (corruptFS, []) "a.png" =
        (corruptFS.ensureDir (["out"] ++ ["0"]), []) ∧
      (corruptFS.ensureDir (["out"] ++ ["0"])).files = corruptFS.files ∧
      ("a.png" :: []).foldl (processFile 10 ["in"] ["out"] "0") (corruptFS, []) =
        [].foldl (processFile 10 ["in"] ["out"] "0")
          (corruptFS.ensureDir (["out"] ++ ["0"]), [])) :=
  ⟨by decide, by decide,
    load_failure_silent_skip 10 ["in"] ["out"] "0" "a.png" [] (corruptFS, [])
      (by decide) (by decide)⟩

/-- C7: an exception raised inside the per-file try block is caught in the
loop: the state keeps the effects performed before the raise, the log gains
exactly one entry carrying the file path and the exception message, and the
fold continues with the remaining files — no per-file exception terminates the
batch. -/
theorem perfile_exception_caught (sz : Nat) (inR outR : FPath) (sub name : String)
    (rest : List String) (st : FS × List LogMsg) (e : String)
    (hout : st.1.pexists (outR ++ [sub, name]) = false)
    (herr : (tryBody sz (inR ++ [sub, name]) (outR ++ [sub, name]) st.1).2 =
      Except.error e) :
    processFile sz inR outR sub st name =
      ((tryBody sz (inR ++ [sub, name]) (outR ++ [sub, name]) st.1).1,
        st.2 ++ [LogMsg.errorProcessing (inR ++ [sub, name]) e]) ∧
    (name :: rest).foldl (processFile sz inR outR sub) st =
      rest.foldl (processFile sz inR outR sub)
        ((tryBody sz (inR ++ [sub, name]) (outR ++ [sub, name]) st.1).1,
          st.2 ++ [LogMsg.errorProcessing (inR ++ [sub, name]) e]) := by
  have h1 : processFile sz inR outR sub st name =
      ((tryBody sz (inR ++ [sub, name]) (outR ++ [sub, name]) st.1).1,
        st.2 ++ [LogMsg.errorProcessing (inR ++ [sub, name]) e]) := by
    unfold processFile
    simp only [hout, Bool.false_eq_true, if_false]
    cases htb : tryBody sz (inR ++ [sub, name]) (outR ++ [sub, name]) st.1 with
    | mk fs2 r =>
      rw [htb] at herr
      simp only at herr
      subst herr
      rfl
  exact ⟨h1, by rw [List.foldl_cons, h1]⟩

/-- Witness for C7 at a state holding an array the transform rejects. -/
theorem perfile_exception_caught_witness :
    badShapeFS.pexists (["out"] ++ ["0", "b.jpg"]) = false ∧
    (tryBody 10 (["in"] ++ ["0", "b.jpg"]) (["out"] ++ ["0", "b.jpg"]) badShapeFS).2 =
      Except.error "invalid number of channels in input image" ∧
    (processFile 10 ["in"] ["out"] "0" (badShapeFS, []) "b.jpg" =
        ((tryBody 10 (["in"] ++ ["0", "b.jpg"]) (["out"] ++ ["0", "b.jpg"]) badShapeFS).1,
          [] ++ [LogMsg.errorProcessing (["in"] ++ ["0", "b.jpg"])
            "invalid number of channels in input image"]) ∧
      ("b.jpg" :: []).foldl (processFile 10 ["in"] ["out"] "0") (badShapeFS, []) =
        [].foldl (processFile 10 ["in"] ["out"] "0")
          ((tryBody 10 (["in"] ++ ["0", "b.jpg"]) (["out"] ++ ["0", "b.jpg"]) badShapeFS).1,
            [] ++ [LogMsg.errorProcessing (["in"] ++ ["0", "b.jpg"])
              "invalid number of channels in input image"])) :=
  ⟨by decide, by decide,
    perfile_exception_caught 10 ["in"] ["out"] "0" "b.jpg" [] (badShapeFS, [])
      "invalid number of channels in input image" (by decide) (by decide)⟩

/-- C8: the driver folds over exactly the six subfolders `0`..`5` in that fixed
order starting from the ensured output root; an absent input subfolder only
appends its skip message and leaves the state unchanged, so the fold continues
with the next subfolder; a present subfolder processes exactly the listed names
that pass the case-insensitive `.png`/`.jpg`/`.jpeg` suffix filter. -/
theorem driver_enumeration (inR outR : FPath) (sz : Nat) (fs : FS)
    (st : FS × List LogMsg) (sub f : String) :
    (process_and_save_images inR outR sz fs =
      ["0", "1", "2", "3", "4", "5"].foldl (processSubfolder sz inR outR)
        (fs.ensureDir outR, [])) ∧
    (st.1.pexists (inR ++ [sub]) = false →
      processSubfolder sz inR outR st sub =
        (st.1, st.2 ++ [LogMsg.subfolderMissing sub])) ∧
    (st.1.pexists (inR ++ [sub]) = true →
      processSubfolder sz inR outR st sub =
        ((st.1.listdir (inR ++ [sub])).filter hasImageExt).foldl
          (processFile sz inR outR sub) st) ∧
    hasImageExt f =
      (".png".data.isSuffixOf (f.data.map Char.toLower) ||
        ".jpg".data.isSuffixOf (f.data.map Char.toLower) ||
        ".jpeg".data.isSuffixOf (f.data.map Char.toLower)) :=
  ⟨rfl, processSubfolder_missing sz inR outR st sub,
    processSubfolder_present sz inR outR st sub, rfl⟩

/-- Witness for C8: subfolder `4` absent from the concrete input tree is logged
and skipped; the mixed-case name `X.PNG` passes the filter. -/
theorem driver_enumeration_witness :
    corruptFS.pexists (["in"] ++ ["4"]) = false ∧
    processSubfolder 10 ["in"] ["out"] (corruptFS, []) "4" =
      (corruptFS, [] ++ [LogMsg.subfolderMissing "4"]) ∧
    hasImageExt "X.PNG" = true :=
  ⟨by decide,
    (driver_enumeration ["in"] ["out"] 10 corruptFS (corruptFS, []) "4" "X.PNG").2.1
      (by decide),
    by decide⟩

/-- C10: the try block ensures the output subdirectory before loading the
image, so for a file whose output path does not exist yet the output
subdirectory exists after the attempt, even when the load fails — in which
case no file is written at all. -/
theorem outdir_exists_after_attempt (sz : Nat) (inR outR : FPath) (sub name : String)
    (st : FS × List LogMsg)
    (hout : st.1.pexists (outR ++ [sub, name]) = false) :
    (processFile sz inR outR sub st name).1.pexists (outR ++ [sub]) = true ∧
    (imread st.1 (inR ++ [sub, name]) = none →
      (processFile sz inR outR sub st name).1.files = st.1.files) := by
  unfold processFile tryBody
  simp only [hout, Bool.false_eq_true, if_false, dropLast_append_pair]
  rw [imread_ensureDir]
  cases himg : imread st.1 (inR ++ [sub, name]) with
  | none =>
    simp only
    exact ⟨ensureDir_pexists_self st.1 (outR ++ [sub]),
      fun _ => ensureDir_files st.1 (outR ++ [sub])⟩
  | some img =>
    cases htr : trim_and_resize img sz with
    | error e =>
      simp only [htr]
      exact ⟨ensureDir_pexists_self st.1 (outR ++ [sub]), fun h => by simp at h⟩
    | ok t =>
      simp only [htr]
      refine ⟨?_, fun h => by simp at h⟩
      exact pexists_write_of_pexists _ _ (ensureDir_pexists_self st.1 (outR ++ [sub]))

/-- Witness for C10 at the concrete corrupt-file state. -/
theorem outdir_exists_after_attempt_witness :
    corruptFS.pexists (["out"] ++ ["0", "a.png"]) = false ∧
    ((processFile 10 ["in"] ["out"] "0" (corruptFS, []) "a.png").1.pexists
        (["out"] ++ ["0"]) = true ∧
      (imread corruptFS (["in"] ++ ["0", "a.png"]) = none →
        (processFile 10 ["in"] ["out"] "0" (corruptFS, []) "a.png").1.files =
          corruptFS.files)) :=
  ⟨by decide,
    outdir_exists_after_attempt 10 ["in"] ["out"] "0" "a.png" (corruptFS, []) (by decide)⟩
